/-
Verification of the ChatImporter backup-extraction core.

Shallow embedding of the Rust sources
  packages/chat_importer/src/matcher/ios_wc.rs
  packages/chat_importer/src/matcher/ios_sms.rs
  packages/chat_importer/src/matcher/mod.rs
  packages/ibackuptool2/src/backup/mod.rs
into Lean 4, together with proofs settling the specification claims.

Modelling conventions:
* Rust machine integers become Nat/Int with explicit `% 2^64` where
  wrap-around matters; byte buffers become `List Nat` of values < 256.
* `HashMap<K, V>` becomes an association list built by successive
  inserts (`hmInsert`); Rust's iteration order is arbitrary, so all
  map-level claims are stated through key membership / lookup or at
  a fixed insertion order.
* External crates linked by the code (mur3, hex, base64, wildmatch)
  implement well-known public algorithms; they are embedded from those
  algorithms' definitions (MurmurHash3 x64 128, RFC 4648 base64, glob
  matching) as the source's `use` sites demand.
* The `regex` crate and SQLite are treated as oracles: a regex capture
  becomes a `String → Option String` parameter, a database query result
  becomes an explicit list of rows.
-/
import Mathlib

set_option autoImplicit false

/-! ## Association-list model of `std::collections::HashMap` -/

/-- Keys of an association list. -/
def hmKeys {α : Type} (m : List (String × α)) : List String :=
  m.map Prod.fst

/-- `HashMap::insert`: replace the entry in place when the key is
present, append a fresh entry otherwise. -/
def hmInsert {α : Type} (m : List (String × α)) (k : String) (v : α) :
    List (String × α) :=
  if m.any (fun p => p.1 == k) then
    m.map (fun p => if p.1 == k then (k, v) else p)
  else
    m ++ [(k, v)]

/-- `HashMap::get`. -/
def hmGet {α : Type} (m : List (String × α)) (k : String) : Option α :=
  (m.find? (fun p => p.1 == k)).map Prod.snd

/-- `collect::<HashMap<_, _>>()` over an iterator of pairs. -/
def hmCollect {α : Type} (l : List (String × α)) : List (String × α) :=
  l.foldl (fun m p => hmInsert m p.1 p.2) []

/-! ## Message types and attachment metadata (ios_wc.rs) -/

/-- `enum MsgType` of ios_wc.rs (discriminants omitted; the `TryFromPrimitive`
conversion is not needed by the claims). -/
inductive MsgType where
  | Normal
  | Image
  | Voice
  | ContactShare
  | Video
  | BigEmoji
  | Location
  | CustomApp
  | VoipContent
  | ShortVideo
  | VoipStatus
  | WeWorkContactShare
  | System
  | Revoke
  | Unknown
  deriving DecidableEq, BEq, Inhabited

/-- `enum MetadataType`.  The float payload carries the IEEE-754 bit
pattern of the Rust `f64`; no claim computes with float values. -/
inductive MetadataType where
  | int (i : Int)
  | float (bits : Nat)
  | str (s : String)
  deriving DecidableEq, BEq

/-- `struct AttachMetadata { mtype, hash: HashMap<String, MetadataType> }`. -/
structure AttachMetadata where
  mtype : MsgType
  hash : List (String × MetadataType)
  deriving DecidableEq, BEq

/-- `AttachMetadata::new()` (`Default` gives `MsgType::Unknown`). -/
def AttachMetadata.new : AttachMetadata :=
  { mtype := MsgType.Unknown, hash := [] }

/-- `AttachMetadata::merge`: the merged map is
`old_hash.clone().into_iter().chain(self.hash).collect()`, i.e. old
entries inserted first, then the new entries (overwriting on clashes).
`hash_checker` only emits warnings and does not affect the value. -/
def AttachMetadata.merge (self old : AttachMetadata) : AttachMetadata :=
  { self with hash := hmCollect (old.hash ++ self.hash) }

/-- `AttachMetadata::with_hash`. -/
def AttachMetadata.with_hash (self : AttachMetadata) (name : String) (h : Int) :
    AttachMetadata :=
  { self with hash := hmInsert self.hash name (MetadataType.int h) }

/-- `AttachMetadata::with_tag`. -/
def AttachMetadata.with_tag (self : AttachMetadata) (name tag : String) :
    AttachMetadata :=
  { self with hash := hmInsert self.hash name (MetadataType.str tag) }

/-- `AttachMetadata::with_type`. -/
def AttachMetadata.with_type (self : AttachMetadata) (t : MsgType) :
    AttachMetadata :=
  { self with mtype := t }

/-- `merge_metadata` of ios_wc.rs at the level of parsed values: the
first argument is the parse result of the old serialized payload
(`None` when `from_slice` fails, in which case the new payload is
returned unchanged); the new payload always parses by the caller's
contract. -/
def merge_metadata (old : Option AttachMetadata) (new : AttachMetadata) :
    AttachMetadata :=
  match old with
  | some o => new.merge o
  | none => new

/-! ## MurmurHash3 x64 128 (the `mur3` crate) and the sub-second offset -/

/-- Truncation to 64 bits (`u64` wrap-around). -/
def m64 (x : Nat) : Nat :=
  x % 18446744073709551616

/-- `u64::rotate_left`. -/
def rotl64 (x r : Nat) : Nat :=
  m64 ((x <<< r) ||| (x >>> (64 - r)))

/-- The 64-bit finalization mix of MurmurHash3. -/
def fmix64 (k0 : Nat) : Nat :=
  let k1 := k0 ^^^ (k0 >>> 33)
  let k2 := m64 (k1 * 0xff51afd7ed558ccd)
  let k3 := k2 ^^^ (k2 >>> 33)
  let k4 := m64 (k3 * 0xc4ceb9fe1a85ec53)
  k4 ^^^ (k4 >>> 33)

/-- Little-endian u64 of a byte list (first byte least significant). -/
def leU64 (bs : List Nat) : Nat :=
  bs.foldr (fun b acc => b + 256 * acc) 0

def mm3C1 : Nat := 0x87c37b91114253d5
def mm3C2 : Nat := 0x4cf5ab2ed0c26f47

/-- One 16-byte block round of MurmurHash3 x64 128. -/
def mm3Round (h1 h2 k1 k2 : Nat) : Nat × Nat :=
  let k1 := m64 (k1 * mm3C1)
  let k1 := rotl64 k1 31
  let k1 := m64 (k1 * mm3C2)
  let h1 := h1 ^^^ k1
  let h1 := rotl64 h1 27
  let h1 := m64 (h1 + h2)
  let h1 := m64 (h1 * 5 + 0x52dce729)
  let k2 := m64 (k2 * mm3C2)
  let k2 := rotl64 k2 33
  let k2 := m64 (k2 * mm3C1)
  let h2 := h2 ^^^ k2
  let h2 := rotl64 h2 31
  let h2 := m64 (h2 + h1)
  let h2 := m64 (h2 * 5 + 0x38495ab5)
  (h1, h2)

/-- Body loop: consume 16-byte blocks, return the state and the tail. -/
def mm3Blocks (h1 h2 : Nat) :
    List Nat → Nat × Nat × List Nat
  | b0 :: b1 :: b2 :: b3 :: b4 :: b5 :: b6 :: b7 ::
    b8 :: b9 :: b10 :: b11 :: b12 :: b13 :: b14 :: b15 :: rest =>
    let k1 := leU64 [b0, b1, b2, b3, b4, b5, b6, b7]
    let k2 := leU64 [b8, b9, b10, b11, b12, b13, b14, b15]
    let s := mm3Round h1 h2 k1 k2
    mm3Blocks s.1 s.2 rest
  | rest => (h1, h2, rest)

/-- Tail handling: the last `len % 16` bytes. -/
def mm3Tail (h1 h2 : Nat) (tail : List Nat) : Nat × Nat :=
  let t1 := tail.take 8
  let t2 := tail.drop 8
  let k2 := leU64 t2
  let h2 :=
    if t2.length > 0 then
      h2 ^^^ m64 (rotl64 (m64 (k2 * mm3C2)) 33 * mm3C1)
    else h2
  let k1 := leU64 t1
  let h1 :=
    if t1.length > 0 then
      h1 ^^^ m64 (rotl64 (m64 (k1 * mm3C1)) 31 * mm3C2)
    else h1
  (h1, h2)

/-- MurmurHash3 x64 128 of a byte string with the given seed; returns
`(h1, h2)`.  `Hasher::finish()` of `mur3::Hasher128` returns `h1`. -/
def murmur128 (seed : Nat) (data : List Nat) : Nat × Nat :=
  let s := mm3Blocks seed seed data
  let s' := mm3Tail s.1 s.2.1 s.2.2
  let h1 := s'.1 ^^^ data.length
  let h2 := s'.2 ^^^ data.length
  let h1 := m64 (h1 + h2)
  let h2 := m64 (h2 + h1)
  let h1 := fmix64 h1
  let h2 := fmix64 h2
  let h1 := m64 (h1 + h2)
  let h2 := m64 (h2 + h1)
  (h1, h2)

/-- `i64::to_be_bytes`: big-endian two's-complement bytes. -/
def i64ToBeBytes (x : Int) : List Nat :=
  let u := (x % 18446744073709551616).toNat
  (List.range 8).map (fun i => u / 2 ^ (8 * (7 - i)) % 256)

/-- `UserDB::get_microsecond` of ios_wc.rs:
`(((hasher.finish() as u128) * 1000) / u32::MAX as u128) as i64`
with `hasher = mur3::Hasher128::with_seed(42)` fed `server_id.to_be_bytes()`.
Note the division is by `u32::MAX = 2^32 - 1` and there is no `% 1000`. -/
def UserDB.get_microsecond (server_id : Int) : Int :=
  Int.ofNat ((murmur128 42 (i64ToBeBytes server_id)).1 * 1000 / 4294967295)

/-! ## Contacts and the record transformer (ios_wc.rs) -/

/-- `std::str::from_utf8` / Rust UTF-8 validation: decode a byte list
to the list of scalar values, rejecting overlong forms, surrogates and
values above U+10FFFF. -/
def utf8Decode : List Nat → Option (List Char)
  | [] => some []
  | b :: rest =>
    if b < 0x80 then
      (utf8Decode rest).map (fun cs => Char.ofNat b :: cs)
    else if b < 0xC2 then none
    else if b < 0xE0 then
      match rest with
      | c1 :: rest' =>
        if 0x80 ≤ c1 ∧ c1 < 0xC0 then
          (utf8Decode rest').map
            (fun cs => Char.ofNat ((b - 0xC0) * 64 + (c1 - 0x80)) :: cs)
        else none
      | _ => none
    else if b < 0xF0 then
      match rest with
      | c1 :: c2 :: rest' =>
        let lo1 := if b = 0xE0 then 0xA0 else 0x80
        let hi1 := if b = 0xED then 0xA0 else 0xC0
        if (lo1 ≤ c1 ∧ c1 < hi1) ∧ (0x80 ≤ c2 ∧ c2 < 0xC0) then
          (utf8Decode rest').map
            (fun cs =>
              Char.ofNat ((b - 0xE0) * 4096 + (c1 - 0x80) * 64 + (c2 - 0x80)) :: cs)
        else none
      | _ => none
    else if b < 0xF5 then
      match rest with
      | c1 :: c2 :: c3 :: rest' =>
        let lo1 := if b = 0xF0 then 0x90 else 0x80
        let hi1 := if b = 0xF4 then 0x90 else 0xC0
        if (lo1 ≤ c1 ∧ c1 < hi1) ∧ (0x80 ≤ c2 ∧ c2 < 0xC0) ∧
            (0x80 ≤ c3 ∧ c3 < 0xC0) then
          (utf8Decode rest').map
            (fun cs =>
              Char.ofNat ((b - 0xF0) * 262144 + (c1 - 0x80) * 4096 +
                (c2 - 0x80) * 64 + (c3 - 0x80)) :: cs)
        else none
      | _ => none
    else none

/-- `struct ContactRemark` (binread: magic byte `0x0A`, a `u8` length,
then exactly that many payload bytes; fails when the stream is shorter). -/
def ContactRemark.read : List Nat → Option (List Nat)
  | 0x0A :: len :: rest => if len ≤ rest.length then some (rest.take len) else none
  | _ => none

/-- `struct Contact` of ios_wc.rs. -/
structure Contact where
  name : String := ""
  remark : List Nat := []
  head : List Nat := []
  user_type : Int := 0
  deriving DecidableEq

/-- `Contact::from_name`. -/
def Contact.from_name (name : String) : Contact :=
  { name := name }

/-- `Contact::get_remark`: parse the length-prefixed remark blob, then
decode it as UTF-8; any failure is `none`. -/
def Contact.get_remark (c : Contact) : Option String :=
  (ContactRemark.read c.remark).bind
    (fun bs => (utf8Decode bs).map (fun cs => String.mk cs))

/-- `struct RecordLine` of ios_wc.rs (one row of a `Chat_<hash>` table). -/
structure RecordLine where
  local_id : Int := 0
  server_id : Int := 0
  created_time : Int := 0
  message : String := ""
  status : Nat := 0
  image_status : Nat := 0
  msg_type : MsgType := MsgType.Unknown
  is_dest : Bool := false
  skip_resource : Bool := false

/-- `HashMap<String, Vec<u8>>` of attachment blobs keyed by stringified
content hash. -/
abbrev Attachments := List (String × List Nat)

/-- The canonical output `Record` (gchdb crate, fields per the record
schema); `metadata` holds the parsed value of the serialized
`AttachMetadata` (`to_vec` never fails on these values). -/
structure Record where
  chat_type : String := ""
  owner_id : String := ""
  group_id : String := ""
  sender_id : String := ""
  sender_name : String := ""
  content : String := ""
  timestamp : Int := 0
  metadata : Option AttachMetadata := none
  deriving DecidableEq

/-- `RecordType`: a record alone or paired with its attachments. -/
inductive RecordType where
  | record (r : Record)
  | withAttaches (r : Record) (attaches : Attachments)
  deriving DecidableEq

/-- Oracles for the external `regex` and `md5` crates.  Each capture
oracle returns the first capture group of the corresponding anchored
pattern when it matches (these patterns have exactly one group, so the
source's `c.len() == 2` filter is always true on a match); `md5Hex` is
`gen_md5` of matcher/mod.rs. -/
structure Oracles where
  md5Hex : String → String
  firstLineCapture : String → Option String
  fromAttrCapture : String → Option String
  fromXmlCapture : String → Option String
  fromXmlCdataCapture : String → Option String

/-- Oracles for the backup-file-system dependent attachment getters of
`RecordLine` (each wraps regex extraction and `Backup::read_file`; their
values are what the corresponding ios_wc.rs methods return). -/
structure AttachOracle where
  get_image : RecordLine → Option (AttachMetadata × Attachments)
  get_video : RecordLine → Option (AttachMetadata × Attachments)
  get_audio : RecordLine → Option (AttachMetadata × Attachments)
  get_custom_app : RecordLine → Option (AttachMetadata × Attachments)
  get_image_metadata : RecordLine → AttachMetadata
  get_video_metadata : RecordLine → AttachMetadata
  get_audio_metadata : RecordLine → AttachMetadata
  get_emoji : RecordLine → AttachMetadata
  get_contact : RecordLine → AttachMetadata
  get_location : RecordLine → AttachMetadata
  get_voip_status : RecordLine → AttachMetadata
  get_revoke : RecordLine → AttachMetadata

/-- The `UserDB` fields consumed by the record transformer. -/
structure UserDB where
  contacts : List (String × Contact) := []
  account : String := ""
  wxid : String := ""
  name : String := ""

/-- `UserDB::get_from_user_id`: try the `fromusername` attribute
pattern, then the XML element pattern, then the CDATA element pattern;
resolve the captured id against the contact index (synthesizing a
name-only contact when absent). -/
def UserDB.get_from_user_id (db : UserDB) (O : Oracles) (content : String) :
    Option (String × String) :=
  ((((O.fromAttrCapture content).filter (fun s => !(s == ""))).orElse
      (fun _ => (O.fromXmlCapture content).filter (fun s => !(s == "")))).orElse
      (fun _ => (O.fromXmlCdataCapture content).filter (fun s => !(s == ""))))
    |>.map (fun cap => (hmGet db.contacts (O.md5Hex cap)).getD (Contact.from_name cap))
    |>.map (fun c => (c.name, c.get_remark.getD ""))

/-- `UserDB::parse_user_info`: parse a leading `<id>:\n` header (the
remaining lines become the content), falling back to
`get_from_user_id` with the content unchanged. -/
def UserDB.parse_user_info (db : UserDB) (O : Oracles) (content : String) :
    Option (String × String × String) :=
  (((O.firstLineCapture content).filter (fun s => !(s == "")))
      |>.map (fun cap => (hmGet db.contacts (O.md5Hex cap)).getD (Contact.from_name cap))
      |>.map (fun c => (c.name, c.get_remark.getD "",
          String.intercalate "\n" ((content.splitOn "\n").drop 1)))).orElse
    (fun _ => (db.get_from_user_id O content).map (fun p => (p.1, p.2, content)))

/-- Rust `{:?}` of `MsgType`. -/
def msgTypeDebug : MsgType → String
  | .Normal => "Normal"
  | .Image => "Image"
  | .Voice => "Voice"
  | .ContactShare => "ContactShare"
  | .Video => "Video"
  | .BigEmoji => "BigEmoji"
  | .Location => "Location"
  | .CustomApp => "CustomApp"
  | .VoipContent => "VoipContent"
  | .ShortVideo => "ShortVideo"
  | .VoipStatus => "VoipStatus"
  | .WeWorkContactShare => "WeWorkContactShare"
  | .System => "System"
  | .Revoke => "Revoke"
  | .Unknown => "Unknown"

/-- Rust `str::ends_with`: a structural (kernel-computable) model of
the suffix test used to detect group chats. -/
def strEndsWith (s suffix : String) : Bool :=
  suffix.toList.isSuffixOf s.toList

/-- The six message types for which a group row with no leading sender
header tries the `fromusername` extraction before giving up. -/
def fromUserTypes : List MsgType :=
  [MsgType.BigEmoji, MsgType.CustomApp, MsgType.Video, MsgType.VoipStatus,
   MsgType.System, MsgType.Revoke]

/-- `UserDB::transform_record_line`.  The `CHECK_ATTACHES` block is
compiled out in the source (`const CHECK_ATTACHES: bool = false`) and
only logs, so it is omitted. -/
def UserDB.transform_record_line (db : UserDB) (O : Oracles) (A : AttachOracle)
    (line : RecordLine) (contact : Contact) : Except String RecordType :=
  let is_group := strEndsWith contact.name "@chatroom"
  let sender : Except String (String × String × String) :=
    if line.is_dest then
      if is_group then
        match db.parse_user_info O line.message with
        | some r => .ok r
        | none =>
          if fromUserTypes.contains line.msg_type then
            match db.get_from_user_id O line.message with
            | some (id, remark) => .ok (id, remark, line.message)
            | none => .ok (contact.name, contact.get_remark.getD "", line.message)
          else
            .error ("new line not exists in a group line: " ++ O.md5Hex contact.name
              ++ ", " ++ toString line.local_id ++ ", " ++ toString line.created_time
              ++ ", " ++ msgTypeDebug line.msg_type)
      else
        .ok (contact.name, contact.get_remark.getD "", line.message)
    else
      .ok ((db.parse_user_info O line.message).elim (db.wxid, db.name, line.message)
        (fun r => (db.wxid, db.name, r.2.2)))
  match sender with
  | .error e => .error e
  | .ok (sender_id, sender_name, content) =>
    let body : Option (String × Option AttachMetadata × Attachments) :=
      match line.msg_type with
      | .Normal =>
        some ((content.replace "\u2028" " ").replace "\u2029" " ", none, [])
      | .Image =>
        ((A.get_image line).map
            (fun pr => ("[img]", some (pr.1.with_type line.msg_type), pr.2))).orElse
          (fun _ =>
            some ("[img]", some ((A.get_image_metadata line).with_type line.msg_type), []))
      | .Video | .ShortVideo =>
        ((A.get_video line).map
            (fun pr => ("[video]", some (pr.1.with_type line.msg_type), pr.2))).orElse
          (fun _ =>
            some ("[video]", some ((A.get_video_metadata line).with_type line.msg_type), []))
      | .Voice =>
        ((A.get_audio line).map
            (fun pr => ("[voice]", some (pr.1.with_type line.msg_type), pr.2))).orElse
          (fun _ =>
            some ("[voice]", some ((A.get_audio_metadata line).with_type line.msg_type), []))
      | .BigEmoji =>
        some ("[emoji]", some ((A.get_emoji line).with_type line.msg_type), [])
      | .ContactShare | .WeWorkContactShare =>
        some ("[contact]", some ((A.get_contact line).with_type line.msg_type), [])
      | .Location =>
        some ("[location]", some ((A.get_location line).with_type line.msg_type), [])
      | .CustomApp =>
        (A.get_custom_app line).map
          (fun pr => ("[app]", some (pr.1.with_type line.msg_type), pr.2))
      | .VoipContent =>
        some ("[voip]",
          some ((AttachMetadata.new.with_tag "type" line.message).with_type line.msg_type), [])
      | .VoipStatus =>
        some ("[voip]", some ((A.get_voip_status line).with_type line.msg_type), [])
      | .System =>
        some ("[system]",
          some ((AttachMetadata.new.with_tag "content" line.message).with_type line.msg_type), [])
      | .Revoke =>
        some ("[revoke]", some ((A.get_revoke line).with_type line.msg_type), [])
      | .Unknown => none
    let r := body.getD (content, none, [])
    let record : Record :=
      { chat_type := "WeChat", owner_id := db.wxid, group_id := contact.name,
        sender_id := sender_id, sender_name := sender_name, content := r.1,
        timestamp := line.created_time * 1000 + UserDB.get_microsecond line.server_id,
        metadata := r.2.1 }
    .ok (if r.2.1.isSome then RecordType.withAttaches record r.2.2
         else RecordType.record record)

/-- `UserDB::transform_record_lines`: fold over the rows, pushing each
successfully transformed record and logging-and-dropping failures. -/
def UserDB.transform_record_lines (db : UserDB) (O : Oracles) (A : AttachOracle)
    (contact : Contact) (lines : List RecordLine) : List RecordType :=
  lines.foldl
    (fun ret curr =>
      match db.transform_record_line O A curr contact with
      | .ok rt => ret ++ [rt]
      | .error _ => ret)
    []

/-! ## `hex2b64` (matcher/mod.rs, hex and base64 crates) -/

/-- A hexadecimal digit's value (`hex` crate: `0-9`, `a-f`, `A-F`). -/
def hexVal (c : Char) : Option Nat :=
  if '0' ≤ c ∧ c ≤ '9' then some (c.toNat - '0'.toNat)
  else if 'a' ≤ c ∧ c ≤ 'f' then some (c.toNat - 'a'.toNat + 10)
  else if 'A' ≤ c ∧ c ≤ 'F' then some (c.toNat - 'A'.toNat + 10)
  else none

/-- `hex::decode`: pairs of hex digits to bytes; fails on an odd length
or a non-hex character. -/
def hexDecodeList : List Char → Option (List Nat)
  | [] => some []
  | [_] => none
  | c1 :: c2 :: rest =>
    match hexVal c1, hexVal c2 with
    | some hi, some lo => (hexDecodeList rest).map (fun bs => (hi * 16 + lo) :: bs)
    | _, _ => none

/-- The base64 standard alphabet (RFC 4648). -/
def b64Char (n : Nat) : Char :=
  "ABCDEFGHIJKLMNOPQRSTUVWXYZabcdefghijklmnopqrstuvwxyz0123456789+/".toList.getD n 'A'

/-- `base64::engine::general_purpose::STANDARD.encode`: standard
alphabet with `=` padding. -/
def b64Encode : List Nat → List Char
  | [] => []
  | [a] =>
    [b64Char (a / 4), b64Char (a % 4 * 16), '=', '=']
  | [a, b] =>
    [b64Char (a / 4), b64Char (a % 4 * 16 + b / 16), b64Char (b % 16 * 4), '=']
  | a :: b :: c :: rest =>
    b64Char (a / 4) :: b64Char (a % 4 * 16 + b / 16) ::
      b64Char (b % 16 * 4 + c / 64) :: b64Char (c % 64) :: b64Encode rest

/-- `hex2b64` of matcher/mod.rs: hex-decode then base64-encode, passing
the input through unchanged when hex decoding fails. -/
def hex2b64 (hex : String) : String :=
  match hexDecodeList hex.toList with
  | some bs => String.mk (b64Encode bs)
  | none => hex

/-! ## SMS extraction (ios_sms.rs) -/

/-- `struct RecordLine` of ios_sms.rs: one row of the
`chat_message_join ⋈ message ⋈ handle` query. -/
structure SmsRecordLine where
  id : Int := 0
  target : String := ""
  text : String := ""
  handle_id : Int := 0
  service : String := ""
  date : Int := 0
  is_from_me : Bool := false
  destination_caller_id : String := ""
  is_spam : Bool := false

/-- `Utc.timestamp(978307200, 0) + Duration::nanoseconds(date)` followed
by `timestamp_millis()`: milliseconds since the Unix epoch, flooring. -/
def smsTimestampMillis (date : Int) : Int :=
  (978307200 * 1000000000 + date).ediv 1000000

/-- `Extractor::get_record_lines` of ios_sms.rs, applied to the rows the
SQL join produced (ordered by date ascending by the query). -/
def Extractor.get_record_lines (owner : String) (rows : List SmsRecordLine) :
    List Record :=
  rows.map (fun r =>
    { chat_type := "iOS " ++ r.service,
      owner_id := r.destination_caller_id,
      group_id := r.target,
      sender_id := if r.is_from_me then r.destination_caller_id else r.target,
      sender_name := if r.is_from_me then owner else r.target,
      content := r.text,
      timestamp := smsTimestampMillis r.date })

/-! ## Backup index and file reader (ibackuptool2 backup/mod.rs) -/

/-- `FileInfo` (file.rs is not under src/; fields per the spec's data
model: declared size, protection class, and the per-file key, present
in unwrapped form after keybag unlock). -/
structure FileInfo where
  size : Nat := 0
  protection_class : Nat := 0
  encryption_key : Option (List Nat) := none
  deriving DecidableEq

/-- `BackupFile` (file.rs is not under src/; fields per the manifest
schema used by backup/mod.rs). -/
structure BackupFile where
  fileid : String := ""
  domain : String := ""
  relative_filename : String := ""
  flags : Int := 0
  fileinfo : Option FileInfo := none
  deriving DecidableEq

/-- The error kinds `read_file` returns (error.rs is not under src/;
variant names as used by backup/mod.rs). -/
inductive BackupError where
  | InManifestButNotFound
  | NoEncryptionKey
  | NoFileInfo
  deriving DecidableEq

/-- `Backup`: the manifest's file list in insertion order, the
encryption flag, and the on-disk blob store keyed by file-id (the
`<root>/<fileid[0..2]>/<fileid>` path resolution; `none` models a path
for which `is_file()` is false). -/
structure Backup where
  files : List BackupFile := []
  is_encrypted : Bool := false
  disk : String → Option (List Nat) := fun _ => none

/-- Glob matching as performed by the `wildmatch` crate: `*` matches
any (possibly empty) run of characters, `?` matches exactly one
character, everything else matches itself, case-sensitively. -/
def globMatch : List Char → List Char → Bool
  | [], t => t.isEmpty
  | a :: p, t =>
    if a = '*' then
      match t with
      | [] => globMatch p []
      | _ :: t' => globMatch p t || globMatch (a :: p) t'
    else
      match t with
      | [] => false
      | c :: t' => if a = '?' then globMatch p t' else a == c && globMatch p t'
termination_by p t => (p.length, t.length)

/-- `Backup::find_wildcard_paths`: scan the manifest in order, keeping
files in the requested domain whose relative path matches the glob. -/
def Backup.find_wildcard_paths (b : Backup) (domain path : String) :
    List BackupFile :=
  b.files.foldl
    (fun paths file =>
      if file.domain == domain && globMatch path.toList file.relative_filename.toList
      then paths ++ [file] else paths)
    []

/-- `Backup::find_regex_paths`: `compile` stands for `Regex::new`
(`none` = pattern rejected); a compiled regex is its match predicate on
the relative path.  A pattern that fails to compile yields `[]`. -/
def Backup.find_regex_paths (compile : String → Option (String → Bool))
    (b : Backup) (domain path : String) : List BackupFile :=
  match compile path with
  | some isMatch =>
    b.files.foldl
      (fun paths file =>
        if file.domain == domain && isMatch file.relative_filename
        then paths ++ [file] else paths)
      []
  | none => []

/-- `Backup::read_file`: resolve the blob on disk, then on an encrypted
backup decrypt with the unwrapped per-file key and truncate to
`min(size, len)`; `decrypt` stands for `decrypt_with_key` (crypto.rs is
not under src/; per the spec it is AES-CBC with zero IV, so it is kept
abstract).  On an unencrypted backup the raw bytes are returned. -/
def Backup.read_file (decrypt : List Nat → List Nat → List Nat)
    (b : Backup) (file : BackupFile) : Except BackupError (List Nat) :=
  match b.disk file.fileid with
  | none => .error .InManifestButNotFound
  | some contents =>
    if b.is_encrypted then
      match file.fileinfo with
      | some fileinfo =>
        match fileinfo.encryption_key with
        | some key =>
          let dec := decrypt key contents
          .ok (dec.take (min fileinfo.size dec.length))
        | none => .error .NoEncryptionKey
      | none => .error .NoFileInfo
    else
      .ok contents

/-! ## The TLV length-prefix decoder (MMMap::parse_pos, ios_wc.rs) -/

/-- `MMMap::parse_pos`.  `none` models the two Rust panics: indexing
`orig_data[pos]` out of range, and slicing `splitted_data[..len]`
beyond the end of the buffer. -/
def MMMap.parse_pos (orig_data : List Nat) (pos : Nat) : Option (Nat × Nat) :=
  match orig_data.get? pos with
  | none => none
  | some size0 =>
    if size0 &&& 0x80 == 0 then
      some (size0, 1)
    else
      let splitted_data := orig_data.drop pos
      let len := (splitted_data.takeWhile (fun u => u &&& 128 != 0)).length + 1
      let step (len : Nat) : Option (Nat × Nat) :=
        if splitted_data.length < len then none
        else
          let splitted_size := splitted_data.take len
          let size := splitted_size.enum.foldl
            (fun size ic =>
              if ic.2 &&& 128 != 0 then
                size ||| ((ic.2 &&& 127) <<< (ic.1 * 7))
              else
                size ||| (ic.2 <<< (ic.1 * 7)))
            0
          some (size, splitted_size.length)
      if len ≥ 4 then step 4
      else if len == 0 then some (0, 0)
      else step len

/-! ## Spec-side definitions and concrete test objects -/

/-- Declarative semantics of the glob language of the claims: `*`
matches any (possibly empty) run of characters, `?` matches exactly one
character, and any other pattern character matches itself only. -/
inductive GlobMatches : List Char → List Char → Prop where
  | nil : GlobMatches [] []
  | lit (c : Char) (p t : List Char) :
      c ≠ '*' → c ≠ '?' → GlobMatches p t → GlobMatches (c :: p) (c :: t)
  | one (c : Char) (p t : List Char) :
      GlobMatches p t → GlobMatches ('?' :: p) (c :: t)
  | star_skip (p t : List Char) :
      GlobMatches p t → GlobMatches ('*' :: p) t
  | star_take (c : Char) (p t : List Char) :
      GlobMatches ('*' :: p) t → GlobMatches ('*' :: p) (c :: t)

/-- Little-endian base-128 value of the low 7 bits of a byte list: the
spec-side meaning of the TLV varint. -/
def varintValue (l : List Nat) : Nat :=
  l.foldr (fun b acc => b % 128 + 128 * acc) 0

/-- Spec-side byte values of a hex string read two digits at a time
(most significant digit first). -/
def hexBytesSpec : List Char → List Nat
  | c1 :: c2 :: rest => ((hexVal c1).getD 0 * 16 + (hexVal c2).getD 0) :: hexBytesSpec rest
  | _ => []

/-- C3 counterexample objects: an encrypted backup holding a single
file whose on-disk blob is 16 bytes while the manifest declares 32. -/
def c3File : BackupFile :=
  { fileid := "ab12", domain := "D", relative_filename := "x",
    fileinfo := some { size := 32, encryption_key := some [1] } }

def c3Backup : Backup :=
  { files := [c3File], is_encrypted := true,
    disk := fun id => if id = "ab12" then some (List.replicate 16 0) else none }

/-- `RecordType::get_record` of the gchdb crate: the record carried by
either variant. -/
def RecordType.getRecord : RecordType → Record
  | .record r => r
  | .withAttaches r _ => r

/-- The concrete objects for C2: oracles on which every capture fails,
attachment getters that find nothing, a group contact and two rows. -/
def c2DB : UserDB := {}

def c2Oracles : Oracles :=
  { md5Hex := fun _ => "d41d8cd98f00b204e9800998ecf8427e",
    firstLineCapture := fun _ => none,
    fromAttrCapture := fun _ => none,
    fromXmlCapture := fun _ => none,
    fromXmlCdataCapture := fun _ => none }

def c2Attach : AttachOracle :=
  { get_image := fun _ => none, get_video := fun _ => none,
    get_audio := fun _ => none, get_custom_app := fun _ => none,
    get_image_metadata := fun _ => AttachMetadata.new,
    get_video_metadata := fun _ => AttachMetadata.new,
    get_audio_metadata := fun _ => AttachMetadata.new,
    get_emoji := fun _ => AttachMetadata.new,
    get_contact := fun _ => AttachMetadata.new,
    get_location := fun _ => AttachMetadata.new,
    get_voip_status := fun _ => AttachMetadata.new,
    get_revoke := fun _ => AttachMetadata.new }

def c2Contact : Contact := { name := "testroom@chatroom" }

def c2SystemLine : RecordLine :=
  { local_id := 7, server_id := 0, created_time := 1700000000,
    message := "you were removed from the group", msg_type := MsgType.System,
    is_dest := true }

def c2NormalLine : RecordLine :=
  { local_id := 8, server_id := 0, created_time := 1700000000,
    message := "plain text without sender header", msg_type := MsgType.Normal,
    is_dest := true }

/-- Bytes the TLV length decoder consumes in the continuation case:
one per leading high-bit byte plus the terminator, truncated to 4. -/
def varintConsumed (b : List Nat) (p : Nat) : Nat :=
  min (((b.drop p).takeWhile (fun u => u &&& 128 != 0)).length + 1) 4

/-! ## Lemmas about the association-list map -/

theorem hmInsert_not_mem {α : Type} (m : List (String × α)) (k : String) (v : α)
    (h : k ∉ hmKeys m) : hmInsert m k v = m ++ [(k, v)] := by
  have hc : ¬ m.any (fun p => p.1 == k) = true := by
    simp only [List.any_eq_true, beq_iff_eq]
    rintro ⟨p, hp, rfl⟩
    exact h (List.mem_map_of_mem Prod.fst hp)
  simp [hmInsert, hc]

theorem hmInsert_mem_self {α : Type} (m : List (String × α)) (k : String) (v : α)
    (hm : (hmKeys m).Nodup) (hv : (k, v) ∈ m) : hmInsert m k v = m := by
  have hc : m.any (fun p => p.1 == k) = true := by
    simp only [List.any_eq_true, beq_iff_eq]
    exact ⟨(k, v), hv, rfl⟩
  simp only [hmInsert, hc, if_true]
  have hinj := List.inj_on_of_nodup_map (f := Prod.fst) hm
  conv_rhs => rw [← List.map_id m]
  refine List.map_congr_left (fun p hp => ?_)
  by_cases hpk : p.1 = k
  · have : p = (k, v) := hinj hp hv hpk
    simp [this]
  · simp [hpk]

theorem foldl_hmInsert_fresh {α : Type} (l : List (String × α)) :
    ∀ acc : List (String × α), (hmKeys (acc ++ l)).Nodup →
      List.foldl (fun m p => hmInsert m p.1 p.2) acc l = acc ++ l := by
  induction l with
  | nil => intro acc _; simp
  | cons p rest ih =>
    intro acc hnd
    have hk : p.1 ∉ hmKeys acc := by
      have := hnd
      simp only [hmKeys, List.map_append, List.map_cons, List.nodup_append] at this
      intro hmem
      exact this.2.2 hmem (List.mem_cons_self _ _)
    have hstep : hmInsert acc p.1 p.2 = acc ++ [p] := hmInsert_not_mem acc p.1 p.2 hk
    have hnd' : (hmKeys ((acc ++ [p]) ++ rest)).Nodup := by
      simpa [List.append_assoc] using hnd
    calc List.foldl (fun m q => hmInsert m q.1 q.2) acc (p :: rest)
        = List.foldl (fun m q => hmInsert m q.1 q.2) (acc ++ [p]) rest := by
          simp [hstep]
      _ = (acc ++ [p]) ++ rest := ih (acc ++ [p]) hnd'
      _ = acc ++ p :: rest := by simp

theorem foldl_hmInsert_stable {α : Type} (l : List (String × α)) :
    ∀ m : List (String × α), (hmKeys m).Nodup → (∀ p ∈ l, p ∈ m) →
      List.foldl (fun m p => hmInsert m p.1 p.2) m l = m := by
  induction l with
  | nil => intro m _ _; simp
  | cons p rest ih =>
    intro m hnd hmem
    have hstep : hmInsert m p.1 p.2 = m :=
      hmInsert_mem_self m p.1 p.2 hnd (hmem p (List.mem_cons_self _ _))
    simp only [List.foldl_cons, hstep]
    exact ih m hnd (fun q hq => hmem q (List.mem_cons_of_mem _ hq))

theorem hmCollect_self_append {α : Type} (l : List (String × α))
    (h : (hmKeys l).Nodup) : hmCollect (l ++ l) = l := by
  have h1 : List.foldl (fun m p => hmInsert m p.1 p.2) ([] : List (String × α)) l = l := by
    simpa using foldl_hmInsert_fresh l [] (by simpa using h)
  have h2 : List.foldl (fun m p => hmInsert m p.1 p.2) l l = l :=
    foldl_hmInsert_stable l l h (fun p hp => hp)
  simp only [hmCollect, List.foldl_append, h1, h2]

theorem hmKeys_insert {α : Type} (m : List (String × α)) (k : String) (v : α) :
    hmKeys (hmInsert m k v) =
      if m.any (fun p => p.1 == k) then hmKeys m else hmKeys m ++ [k] := by
  unfold hmInsert
  by_cases hc : m.any (fun p => p.1 == k) = true
  · simp only [hc, if_true, hmKeys, List.map_map]
    refine List.map_congr_left (fun p _ => ?_)
    by_cases hpk : p.1 = k
    · simp [Function.comp, hpk]
    · simp [Function.comp, hpk]
  · simp [hc, hmKeys]

theorem mem_hmKeys_insert {α : Type} (m : List (String × α)) (k a : String) (v : α) :
    a ∈ hmKeys (hmInsert m k v) ↔ a = k ∨ a ∈ hmKeys m := by
  rw [hmKeys_insert]
  by_cases hc : m.any (fun p => p.1 == k) = true
  · simp only [hc, if_true]
    constructor
    · exact Or.inr
    · rintro (rfl | h)
      · simp only [List.any_eq_true, beq_iff_eq] at hc
        obtain ⟨q, hq, hqk⟩ := hc
        exact hqk ▸ List.mem_map_of_mem Prod.fst hq
      · exact h
  · simp only [Bool.not_eq_true] at hc
    simp only [hc, Bool.false_eq_true, if_false, List.mem_append, List.mem_singleton]
    tauto

theorem mem_hmKeys_foldl {α : Type} (l : List (String × α)) :
    ∀ (acc : List (String × α)) (a : String),
      a ∈ hmKeys (List.foldl (fun m p => hmInsert m p.1 p.2) acc l) ↔
        a ∈ hmKeys acc ∨ a ∈ hmKeys l := by
  induction l with
  | nil => intro acc a; simp [hmKeys]
  | cons p rest ih =>
    intro acc a
    rw [List.foldl_cons, ih (hmInsert acc p.1 p.2) a, mem_hmKeys_insert]
    simp only [hmKeys, List.map_cons, List.mem_cons]
    tauto

theorem mem_hmKeys_collect {α : Type} (l : List (String × α)) (a : String) :
    a ∈ hmKeys (hmCollect l) ↔ a ∈ hmKeys l := by
  simpa [hmCollect, hmKeys] using mem_hmKeys_foldl l [] a

theorem hmGet_isSome_iff {α : Type} (m : List (String × α)) (k : String) :
    (hmGet m k).isSome = true ↔ k ∈ hmKeys m := by
  induction m with
  | nil => simp [hmGet, hmKeys]
  | cons p rest ih =>
    by_cases hpk : p.1 = k
    · rw [hmGet, List.find?_cons_of_pos _ (by simpa using hpk)]
      simp [hmKeys, hpk]
    · rw [hmGet, List.find?_cons_of_neg _ (by simpa using hpk)]
      rw [hmGet] at ih
      simp only [hmKeys, List.map_cons, List.mem_cons] at ih ⊢
      rw [ih]
      have hne : ¬ k = p.1 := fun h => hpk h.symm
      tauto

/-! ## Declarative glob semantics and the matcher equivalence -/

theorem globMatch_iff_globMatches (p t : List Char) :
    globMatch p t = true ↔ GlobMatches p t := by
  generalize hn : p.length + t.length = n
  induction n using Nat.strong_induction_on generalizing p t with
  | _ n ih =>
  subst hn
  cases p with
  | nil =>
    cases t with
    | nil =>
      rw [globMatch]
      constructor
      · intro _; exact GlobMatches.nil
      · intro _; rfl
    | cons c t' =>
      rw [globMatch]
      constructor
      · intro h; simp at h
      · intro h; cases h
  | cons a p' =>
    by_cases ha : a = '*'
    · subst ha
      cases t with
      | nil =>
        rw [globMatch, if_pos rfl]
        rw [ih (p'.length + 0) (by simp) p' [] rfl]
        constructor
        · exact GlobMatches.star_skip p' []
        · intro h
          cases h with
          | star_skip _ _ h => exact h
      | cons c t' =>
        rw [globMatch, if_pos rfl, Bool.or_eq_true]
        rw [ih (p'.length + (c :: t').length) (by simp) p' (c :: t') rfl]
        rw [ih (('*' :: p').length + t'.length) (by simp) ('*' :: p') t' rfl]
        constructor
        · rintro (h | h)
          · exact GlobMatches.star_skip p' (c :: t') h
          · exact GlobMatches.star_take c p' t' h
        · intro h
          cases h with
          | lit _ _ _ hstar _ _ => exact absurd rfl hstar
          | star_skip _ _ h => exact Or.inl h
          | star_take _ _ _ h => exact Or.inr h
    · cases t with
      | nil =>
        rw [globMatch, if_neg ha]
        constructor
        · intro h; simp at h
        · intro h
          cases h with
          | star_skip _ _ _ => exact absurd rfl ha
      | cons c t' =>
        rw [globMatch, if_neg ha]
        by_cases hq : a = '?'
        · subst hq
          rw [if_pos rfl]
          rw [ih (p'.length + t'.length) (by simp; omega) p' t' rfl]
          constructor
          · exact GlobMatches.one c p' t'
          · intro h
            cases h with
            | lit _ _ _ _ hq _ => exact absurd rfl hq
            | one _ _ _ h => exact h
        · rw [if_neg hq, Bool.and_eq_true]
          rw [ih (p'.length + t'.length) (by simp; omega) p' t' rfl]
          constructor
          · rintro ⟨h1, h2⟩
            have hac : a = c := by simpa using h1
            subst hac
            exact GlobMatches.lit a p' t' ha hq h2
          · intro h
            cases h with
            | lit _ _ _ _ _ h => exact ⟨by simp, h⟩
            | one _ _ _ _ => exact absurd rfl hq
            | star_skip _ _ _ => exact absurd rfl ha
            | star_take _ _ _ _ => exact absurd rfl ha

/-! ## Generic helper lemmas -/

theorem foldl_push_filter {β : Type} (l : List β) (f : β → Bool) :
    ∀ init : List β,
      l.foldl (fun acc x => if f x then acc ++ [x] else acc) init =
        init ++ l.filter f := by
  induction l with
  | nil => intro init; simp
  | cons x rest ih =>
    intro init
    by_cases hx : f x = true
    · rw [List.foldl_cons, if_pos hx, ih, List.filter_cons_of_pos hx,
        List.append_assoc]
      rfl
    · rw [List.foldl_cons, if_neg hx, ih,
        List.filter_cons_of_neg (by simpa using hx)]

theorem option_orElse_eq_none {α : Type} (x : Option α) (f : Unit → Option α)
    (h : x.orElse f = none) : x = none ∧ f () = none := by
  cases x with
  | none => exact ⟨rfl, h⟩
  | some a => simp [Option.orElse] at h

theorem lor_shiftLeft_eq_add (acc x k : Nat) (hacc : acc < 2 ^ k) :
    acc ||| (x <<< k) = acc + x * 2 ^ k := by
  have h := Nat.mul_add_lt_is_or hacc x
  rw [Nat.shiftLeft_eq, Nat.lor_comm, Nat.mul_comm x (2 ^ k), ← h,
    Nat.mul_comm (2 ^ k) x]
  exact Nat.add_comm _ _

theorem varintValue_cons (x : Nat) (l : List Nat) :
    varintValue (x :: l) = x % 128 + 128 * varintValue l := rfl

theorem parse_pos_fold_general (l : List Nat) :
    ∀ (i acc : Nat), (∀ x ∈ l, x < 256) → acc < 2 ^ (i * 7) →
      (List.foldl
        (fun size ic =>
          if ic.2 &&& 128 != 0 then size ||| ((ic.2 &&& 127) <<< (ic.1 * 7))
          else size ||| (ic.2 <<< (ic.1 * 7)))
        acc (List.enumFrom i l)) = acc + varintValue l * 2 ^ (i * 7) := by
  induction l with
  | nil => intro i acc _ _; simp [varintValue]
  | cons x rest ih =>
    intro i acc hbytes hacc
    have hx : x < 256 := hbytes x (List.mem_cons_self _ _)
    have hmask : x &&& 127 = x % 128 := by
      have h7 := Nat.and_pow_two_sub_one_eq_mod x 7
      norm_num at h7
      exact h7
    have hstep :
        (if x &&& 128 != 0 then acc ||| ((x &&& 127) <<< (i * 7))
         else acc ||| (x <<< (i * 7))) = acc + x % 128 * 2 ^ (i * 7) := by
      by_cases hbit : (x &&& 128 != 0) = true
      · rw [if_pos hbit, hmask, lor_shiftLeft_eq_add _ _ _ hacc]
      · have hz : x &&& 128 = 0 := by simpa using hbit
        have hlt : x < 128 := by
          by_contra hge
          push_neg at hge
          have hbit7 : x.testBit 7 = true := by
            rw [Nat.testBit_to_div_mod]
            have hdiv : x / 2 ^ 7 = 1 := by norm_num; omega
            rw [hdiv]
            rfl
          have h2 := Nat.and_two_pow x 7
          rw [hbit7] at h2
          norm_num at h2
          rw [hz] at h2
          simp at h2
        have hxmod : x % 128 = x := Nat.mod_eq_of_lt hlt
        rw [if_neg hbit, hxmod, lor_shiftLeft_eq_add _ _ _ hacc]
    rw [List.enumFrom_cons, List.foldl_cons]
    have hred :
        (if ((i, x).2 &&& 128 != 0) = true then
          acc ||| ((i, x).2 &&& 127) <<< ((i, x).1 * 7)
         else acc ||| (i, x).2 <<< ((i, x).1 * 7)) =
        acc + x % 128 * 2 ^ (i * 7) := hstep
    rw [hred]
    have hacc' : acc + x % 128 * 2 ^ (i * 7) < 2 ^ ((i + 1) * 7) := by
      have hxm : x % 128 ≤ 127 := by omega
      have h1 : x % 128 * 2 ^ (i * 7) ≤ 127 * 2 ^ (i * 7) :=
        Nat.mul_le_mul_right (2 ^ (i * 7)) hxm
      have h2 : 2 ^ (i * 7) + 127 * 2 ^ (i * 7) = 2 ^ ((i + 1) * 7) := by
        have he : (i + 1) * 7 = i * 7 + 7 := by ring
        rw [he, Nat.pow_add]
        ring
      omega
    rw [ih (i + 1) _ (fun y hy => hbytes y (List.mem_cons_of_mem _ hy)) hacc']
    rw [varintValue_cons]
    have he : (i + 1) * 7 = i * 7 + 7 := by ring
    rw [he, Nat.pow_add]
    have h128 : (2 : Nat) ^ 7 = 128 := by norm_num
    rw [h128]
    ring

/-- `hex::decode` succeeds exactly on even-length all-hex-digit
strings, and then yields the spec-side byte values. -/
theorem hexDecodeList_eq (l : List Char) :
    hexDecodeList l =
      if l.length % 2 = 0 ∧ ∀ c ∈ l, (hexVal c).isSome = true
      then some (hexBytesSpec l) else none := by
  generalize hn : l.length = n
  induction n using Nat.strong_induction_on generalizing l with
  | _ n ih =>
  subst hn
  match l with
  | [] => simp [hexDecodeList, hexBytesSpec]
  | [c] => simp [hexDecodeList]
  | c1 :: c2 :: rest =>
    rw [hexDecodeList]
    cases h1 : hexVal c1 with
    | none =>
      rw [if_neg]
      rintro ⟨-, hall⟩
      have hc := hall c1 (by simp)
      rw [h1] at hc
      simp at hc
    | some hi =>
      cases h2 : hexVal c2 with
      | none =>
        rw [if_neg]
        rintro ⟨-, hall⟩
        have hc := hall c2 (by simp)
        rw [h2] at hc
        simp at hc
      | some lo =>
        rw [ih rest.length (by simp only [List.length_cons]; omega) rest rfl]
        by_cases hc : rest.length % 2 = 0 ∧ ∀ c ∈ rest, (hexVal c).isSome = true
        · rw [if_pos hc, if_pos]
          · show Option.map (fun bs => (hi * 16 + lo) :: bs) (some (hexBytesSpec rest)) =
              some (hexBytesSpec (c1 :: c2 :: rest))
            rw [hexBytesSpec, h1, h2]
            rfl
          · refine ⟨by simp only [List.length_cons]; omega, fun c hcm => ?_⟩
            rcases List.mem_cons.mp hcm with rfl | hcm
            · rw [h1]; rfl
            · rcases List.mem_cons.mp hcm with rfl | hcm
              · rw [h2]; rfl
              · exact hc.2 c hcm
        · rw [if_neg hc, if_neg]
          · rfl
          · rintro ⟨hlen, hall⟩
            refine hc ⟨?_, fun c hcm =>
              hall c (List.mem_cons_of_mem _ (List.mem_cons_of_mem _ hcm))⟩
            simp only [List.length_cons] at hlen
            omega

/-! ## Claim C1 -/

/-- C1: the spec claims the sub-second offset of `UserDB::get_microsecond`
lies in [0, 1000); evaluating the embedded code at server-id 0 yields
1129028350435, which violates the bound — the code divides a full 64-bit
MurmurHash word by `u32::MAX` and never reduces modulo 1000, so the
"sub-second" offset can exceed a millennium of milliseconds. -/
theorem C1_get_microsecond_out_of_bound :
    UserDB.get_microsecond 0 = 1129028350435 ∧
      ¬ UserDB.get_microsecond 0 < 1000 := by
  constructor
  · decide
  · decide

/-! ## Claim C4 -/

/-- C4: merging a serialized metadata payload with itself is the
identity.  Serialized payloads are modelled by their parsed
`AttachMetadata` values (`serde_json` round-trips the value; a
`HashMap` parsed from a payload has distinct keys, which is the `Nodup`
hypothesis). -/
theorem C4_merge_identity (x : AttachMetadata) (h : (hmKeys x.hash).Nodup) :
    merge_metadata (some x) x = x := by
  show AttachMetadata.merge x x = x
  unfold AttachMetadata.merge
  cases x with
  | mk mtype hash => simp only [hmCollect_self_append hash h]

/-- C4 witness: a concrete two-field payload merged with itself. -/
theorem C4_witness :
    (hmKeys [("thum", MetadataType.int 5), ("img", MetadataType.int 7)]).Nodup ∧
    merge_metadata
        (some ⟨MsgType.Image, [("thum", MetadataType.int 5), ("img", MetadataType.int 7)]⟩)
        ⟨MsgType.Image, [("thum", MetadataType.int 5), ("img", MetadataType.int 7)]⟩ =
      ⟨MsgType.Image, [("thum", MetadataType.int 5), ("img", MetadataType.int 7)]⟩ :=
  ⟨by decide, C4_merge_identity _ (by decide)⟩

/-! ## Claim C5 -/

/-- C5: the metadata merge is monotone in the old payload's keys: every
field key present in `old`'s map is present in `merge(old, new)`
(`new.merge old` in the source's receiver convention); no field present
only in `old` is deleted. -/
theorem C5_merge_monotone (old next : AttachMetadata) (k : String)
    (h : (hmGet old.hash k).isSome = true) :
    (hmGet (AttachMetadata.merge next old).hash k).isSome = true := by
  rw [hmGet_isSome_iff] at h ⊢
  unfold AttachMetadata.merge
  simp only
  rw [mem_hmKeys_collect]
  simp only [hmKeys, List.map_append, List.mem_append]
  exact Or.inl h

/-- C5 witness: a key present only in the old payload survives a merge
with a new payload carrying different fields. -/
theorem C5_witness :
    (hmGet [("thum", MetadataType.int 5)] "thum").isSome = true ∧
    (hmGet (AttachMetadata.merge
        ⟨MsgType.Image, [("img", MetadataType.int 9)]⟩
        ⟨MsgType.Image, [("thum", MetadataType.int 5)]⟩).hash "thum").isSome = true :=
  ⟨by decide,
    C5_merge_monotone ⟨MsgType.Image, [("thum", MetadataType.int 5)]⟩
      ⟨MsgType.Image, [("img", MetadataType.int 9)]⟩ "thum" (by decide)⟩

/-! ## Claim C6 -/

/-- C6: `hex2b64` returns the standard base64 encoding of the bytes
obtained by hex-decoding the input when it is a valid hexadecimal
string (even length, all hex digits — exactly when `hex::decode`
succeeds), and returns the input unchanged otherwise. -/
theorem C6_hex2b64_correct (s : String) :
    ((s.toList.length % 2 = 0 ∧ ∀ c ∈ s.toList, (hexVal c).isSome = true) →
      hex2b64 s = String.mk (b64Encode (hexBytesSpec s.toList))) ∧
    (¬ (s.toList.length % 2 = 0 ∧ ∀ c ∈ s.toList, (hexVal c).isSome = true) →
      hex2b64 s = s) := by
  constructor
  · intro h
    unfold hex2b64
    rw [hexDecodeList_eq, if_pos h]
  · intro h
    unfold hex2b64
    rw [hexDecodeList_eq, if_neg h]

/-- C6 witness: a valid hex string is decoded and re-encoded, an
invalid one passes through unchanged. -/
theorem C6_witness :
    hex2b64 "48656c6c6f" = String.mk (b64Encode (hexBytesSpec "48656c6c6f".toList)) ∧
    hex2b64 "zz" = "zz" :=
  ⟨(C6_hex2b64_correct "48656c6c6f").1 (by decide),
   (C6_hex2b64_correct "zz").2 (by decide)⟩

/-! ## Claim C7 -/

/-- C7: an SMS join row with `is_from_me = 1`,
`destination_caller_id = "+111"`, `service = "iMessage"` and `date` the
CoreData-epoch nanoseconds of 2020-01-01 00:00:00 UTC
(599529600000000000 ns after 2001-01-01) produces exactly one record
with `chat_type = "iOS iMessage"`, `owner_id = sender_id = "+111"` and
timestamp 1577836800000 ms. -/
theorem C7_sms_extraction (owner : String) (row : SmsRecordLine)
    (hfm : row.is_from_me = true)
    (hdest : row.destination_caller_id = "+111")
    (hserv : row.service = "iMessage")
    (hdate : row.date = 599529600000000000) :
    Extractor.get_record_lines owner [row] =
      [{ chat_type := "iOS iMessage", owner_id := "+111", group_id := row.target,
         sender_id := "+111", sender_name := owner, content := row.text,
         timestamp := 1577836800000 }] := by
  unfold Extractor.get_record_lines
  simp only [List.map_cons, List.map_nil, hfm, hdest, hserv, hdate, if_true]
  have hts : smsTimestampMillis 599529600000000000 = 1577836800000 := by decide
  rw [hts]
  rfl

/-- C7 witness: the concrete scenario row. -/
theorem C7_witness :
    Extractor.get_record_lines "me"
        [{ id := 1, target := "+222", text := "hi", handle_id := 1,
           service := "iMessage", date := 599529600000000000,
           is_from_me := true, destination_caller_id := "+111" }] =
      [{ chat_type := "iOS iMessage", owner_id := "+111", group_id := "+222",
         sender_id := "+111", sender_name := "me", content := "hi",
         timestamp := 1577836800000 }] :=
  C7_sms_extraction "me" _ rfl rfl rfl rfl

/-! ## Claim C8 -/

/-- C8: `find_wildcard_paths` returns exactly the manifest files in the
requested domain (case-sensitive string equality) whose relative path
matches the glob, in manifest insertion order (it equals `filter` over
the manifest list), and the boolean matcher agrees with the declarative
glob semantics (`*` = any run, `?` = exactly one character). -/
theorem C8_find_wildcard_paths (b : Backup) (domain g : String) :
    b.find_wildcard_paths domain g =
      b.files.filter
        (fun f => f.domain == domain && globMatch g.toList f.relative_filename.toList) ∧
    ∀ f : BackupFile,
      (f.domain == domain && globMatch g.toList f.relative_filename.toList) = true ↔
        (f.domain = domain ∧ GlobMatches g.toList f.relative_filename.toList) := by
  constructor
  · unfold Backup.find_wildcard_paths
    simpa using foldl_push_filter b.files
      (fun f => f.domain == domain && globMatch g.toList f.relative_filename.toList) []
  · intro f
    rw [Bool.and_eq_true, beq_iff_eq, globMatch_iff_globMatches]

/-! ## Claim C3 -/

/-- C3 (amended): for a file of an encrypted backup that is on disk and
carries an unwrapped key, `read_file` returns the decrypted blob
truncated to the declared size, so the plaintext length is
`min(size, len(decrypted))` — it equals the declared size exactly when
the decrypted data is at least that long. -/
theorem C3_read_file_truncates (decrypt : List Nat → List Nat → List Nat)
    (b : Backup) (f : BackupFile) (fi : FileInfo) (key contents : List Nat)
    (henc : b.is_encrypted = true)
    (hfi : f.fileinfo = some fi)
    (hkey : fi.encryption_key = some key)
    (hdisk : b.disk f.fileid = some contents) :
    b.read_file decrypt f = .ok ((decrypt key contents).take fi.size) ∧
    ((decrypt key contents).take fi.size).length =
      min fi.size (decrypt key contents).length := by
  have hmin : (decrypt key contents).take (min fi.size (decrypt key contents).length) =
      (decrypt key contents).take fi.size := by
    rcases Nat.le_total fi.size (decrypt key contents).length with hle | hle
    · rw [Nat.min_eq_left hle]
    · rw [Nat.min_eq_right hle, List.take_length, List.take_of_length_le hle]
  constructor
  · simp only [Backup.read_file, hdisk, henc, hfi, hkey, if_true]
    exact congrArg Except.ok hmin
  · rw [List.length_take]

/-- C3 counterexample: with a length-preserving decryption (identity;
AES-CBC without padding removal preserves length) the plaintext has 16
bytes, not the declared 32 — the code truncates to
`min(size, len)`, it does not pad up to `size`. -/
theorem C3_counterexample :
    (c3Backup.read_file (fun _ c => c) c3File).map List.length = .ok 16 ∧
    (c3File.fileinfo.map FileInfo.size) = some 32 := by
  constructor
  · rfl
  · rfl

/-- C3 witness: the amended theorem applied to the counterexample
backup. -/
theorem C3_witness :
    c3Backup.read_file (fun _ c => c) c3File =
      .ok ((List.replicate 16 0).take 32) ∧
    ((List.replicate 16 0).take 32).length = min 32 (List.replicate 16 (0 : Nat)).length := by
  have h := C3_read_file_truncates (fun _ c => c) c3Backup c3File
    { size := 32, protection_class := 0, encryption_key := some [1] } [1]
    (List.replicate 16 0) rfl rfl rfl (by decide)
  simpa using h

/-! ## Claim C10 -/

/-- C10: a pattern rejected by the regex compiler makes
`find_regex_paths` return the empty list rather than an error, so a
malformed pattern is indistinguishable from a well-formed pattern that
matches no file. -/
theorem C10_find_regex_invalid (compile : String → Option (String → Bool))
    (b : Backup) (domain p : String) (h : compile p = none) :
    Backup.find_regex_paths compile b domain p = [] ∧
    ∀ p2 m2, compile p2 = some m2 →
      (∀ f ∈ b.files, m2 f.relative_filename = false) →
        Backup.find_regex_paths compile b domain p =
          Backup.find_regex_paths compile b domain p2 := by
  have hnil : Backup.find_regex_paths compile b domain p = [] := by
    unfold Backup.find_regex_paths
    rw [h]
  refine ⟨hnil, fun p2 m2 h2 hm => ?_⟩
  rw [hnil]
  unfold Backup.find_regex_paths
  rw [h2]
  show ([] : List BackupFile) =
    List.foldl
      (fun paths file =>
        if file.domain == domain && m2 file.relative_filename then paths ++ [file]
        else paths)
      [] b.files
  rw [foldl_push_filter b.files
    (fun f => f.domain == domain && m2 f.relative_filename) []]
  rw [List.nil_append]
  symm
  rw [List.filter_eq_nil_iff]
  intro f hf
  rw [hm f hf]
  simp

/-- C10 witness: a compiler that rejects `"("` and accepts `"ok"` as a
never-matching regex; both queries yield the empty list. -/
theorem C10_witness :
    Backup.find_regex_paths
        (fun s => if s = "ok" then some (fun _ => false) else none)
        { files := [{ fileid := "f1", domain := "D", relative_filename := "a" }] }
        "D" "(" = [] ∧
    ∀ p2 m2,
      (fun s => if s = "ok" then some (fun _ => false) else none) p2 = some m2 →
      (∀ f ∈ ({ files := [{ fileid := "f1", domain := "D", relative_filename := "a" }] } :
          Backup).files, m2 f.relative_filename = false) →
        Backup.find_regex_paths
            (fun s => if s = "ok" then some (fun _ => false) else none)
            { files := [{ fileid := "f1", domain := "D", relative_filename := "a" }] }
            "D" "(" =
          Backup.find_regex_paths
            (fun s => if s = "ok" then some (fun _ => false) else none)
            { files := [{ fileid := "f1", domain := "D", relative_filename := "a" }] }
            "D" p2 :=
  C10_find_regex_invalid _ _ "D" "(" rfl

/-! ## Claim C2 -/

theorem parse_user_info_eq_none (db : UserDB) (O : Oracles) (content : String)
    (hheader : (O.firstLineCapture content).filter (fun s => !(s == "")) = none)
    (hfrom : db.get_from_user_id O content = none) :
    db.parse_user_info O content = none := by
  unfold UserDB.parse_user_info
  rw [hheader, hfrom]
  rfl

/-- C2 (amended): for a group-chat row with is-incoming = true where
neither the leading `<id>:\n` header parse nor the `fromusername`
extraction yields a sender, the row is dropped exactly when the message
type is outside {BigEmoji, CustomApp, Video, VoipStatus, System,
Revoke}; for a type inside that set the row is still emitted, with the
group contact itself as the sender. -/
theorem C2_group_sender_policy (db : UserDB) (O : Oracles) (A : AttachOracle)
    (line : RecordLine) (contact : Contact)
    (hg : strEndsWith contact.name "@chatroom" = true)
    (hd : line.is_dest = true)
    (hheader : (O.firstLineCapture line.message).filter (fun s => !(s == "")) = none)
    (hfrom : db.get_from_user_id O line.message = none) :
    (fromUserTypes.contains line.msg_type = false →
      (∃ e, db.transform_record_line O A line contact = .error e) ∧
      db.transform_record_lines O A contact [line] = []) ∧
    (fromUserTypes.contains line.msg_type = true →
      ∃ rt, db.transform_record_line O A line contact = .ok rt ∧
        rt.getRecord.sender_id = contact.name) := by
  have hp : db.parse_user_info O line.message = none :=
    parse_user_info_eq_none db O line.message hheader hfrom
  constructor
  · intro hc
    have herr : db.transform_record_line O A line contact =
        .error ("new line not exists in a group line: " ++ O.md5Hex contact.name
          ++ ", " ++ toString line.local_id ++ ", " ++ toString line.created_time
          ++ ", " ++ msgTypeDebug line.msg_type) := by
      simp only [UserDB.transform_record_line, hd, hg, hp, hc, Bool.false_eq_true,
        if_true, ite_true, if_false, ite_false]
    refine ⟨⟨_, herr⟩, ?_⟩
    simp only [UserDB.transform_record_lines, List.foldl_cons, List.foldl_nil, herr]
  · intro hc
    simp only [UserDB.transform_record_line, hd, hg, hp, hfrom, hc, if_true,
      ite_true]
    refine ⟨_, rfl, ?_⟩
    split
    · rfl
    · rfl

/-- C2 counterexample: a group incoming `System` row on which both the
header parse and the `fromusername` extraction fail is nevertheless
transformed successfully and emitted (the code falls back to the group
contact itself as the sender) — the claim says such a row is always
dropped. -/
theorem C2_counterexample :
    c2DB.parse_user_info c2Oracles c2SystemLine.message = none ∧
    c2DB.get_from_user_id c2Oracles c2SystemLine.message = none ∧
    strEndsWith c2Contact.name "@chatroom" = true ∧
    c2SystemLine.is_dest = true ∧
    (c2DB.transform_record_line c2Oracles c2Attach c2SystemLine c2Contact).isOk = true ∧
    (c2DB.transform_record_lines c2Oracles c2Attach c2Contact [c2SystemLine]).length = 1 := by
  exact ⟨rfl, rfl, rfl, rfl, rfl, rfl⟩

/-- C2 witness: the amended theorem at the two concrete rows — the
`Normal` row fails and is dropped, the `System` row is emitted with the
group contact as sender. -/
theorem C2_witness :
    ((∃ e, c2DB.transform_record_line c2Oracles c2Attach c2NormalLine c2Contact = .error e) ∧
      c2DB.transform_record_lines c2Oracles c2Attach c2Contact [c2NormalLine] = []) ∧
    (∃ rt, c2DB.transform_record_line c2Oracles c2Attach c2SystemLine c2Contact = .ok rt ∧
      rt.getRecord.sender_id = c2Contact.name) :=
  ⟨(C2_group_sender_policy c2DB c2Oracles c2Attach c2NormalLine c2Contact
      rfl rfl rfl rfl).1 rfl,
   (C2_group_sender_policy c2DB c2Oracles c2Attach c2SystemLine c2Contact
      rfl rfl rfl rfl).2 rfl⟩

/-! ## Claim C9 -/

theorem parse_pos_fold (l : List Nat) (hl : ∀ x ∈ l, x < 256) :
    (List.foldl
      (fun size ic =>
        if ic.2 &&& 128 != 0 then size ||| ((ic.2 &&& 127) <<< (ic.1 * 7))
        else size ||| (ic.2 <<< (ic.1 * 7)))
      0 l.enum) = varintValue l := by
  have h := parse_pos_fold_general l 0 0 hl (by norm_num)
  simpa [List.enum] using h

/-- C9 (amended): for `p < len b` over a byte buffer, `parse_pos`
returns `(b[p], 1)` when the high bit of `b[p]` is clear; otherwise it
consumes `min(continuation-run + 1, 4)` bytes and returns their
little-endian base-128 value (low 7 bits per byte) — provided that many
bytes remain; when the remainder of the buffer is shorter than the
window (an all-continuation tail of fewer than 4 bytes), the Rust code
panics with an out-of-range slice (modelled as `none`). -/
theorem C9_parse_pos_decodes (b : List Nat) (p : Nat)
    (hp : p < b.length) (hbytes : ∀ x ∈ b, x < 256) :
    (b[p] &&& 0x80 = 0 →
      MMMap.parse_pos b p = some (b[p], 1)) ∧
    (b[p] &&& 0x80 ≠ 0 → varintConsumed b p ≤ (b.drop p).length →
      MMMap.parse_pos b p =
        some (varintValue ((b.drop p).take (varintConsumed b p)),
          varintConsumed b p)) ∧
    (b[p] &&& 0x80 ≠ 0 → (b.drop p).length < varintConsumed b p →
      MMMap.parse_pos b p = none) := by
  have hget : b.get? p = some b[p] := by
    rw [List.get?_eq_getElem?, List.getElem?_eq_getElem hp]
  have hsub : ∀ n, ∀ x ∈ (b.drop p).take n, x < 256 := fun n x hx =>
    hbytes x (List.mem_of_mem_drop (List.mem_of_mem_take hx))
  refine ⟨?_, ?_, ?_⟩
  · intro h0
    unfold MMMap.parse_pos
    rw [hget]
    have hcond : ((b[p] &&& 0x80) == 0) = true := by simp [h0]
    simp only [hcond, if_true, ite_true]
  · intro hne hle
    unfold MMMap.parse_pos
    rw [hget]
    have hcond : ((b[p] &&& 0x80) == 0) = false := by
      simpa using hne
    simp only [hcond, Bool.false_eq_true, if_false, ite_false]
    by_cases h4 : ((b.drop p).takeWhile (fun u => u &&& 128 != 0)).length + 1 ≥ 4
    · have hcons : varintConsumed b p = 4 := by
        unfold varintConsumed; omega
      rw [hcons] at hle ⊢
      rw [if_pos h4, if_neg (Nat.not_lt.mpr hle)]
      rw [parse_pos_fold _ (hsub 4)]
      rw [List.length_take, Nat.min_eq_left hle]
    · have hcons : varintConsumed b p =
          ((b.drop p).takeWhile (fun u => u &&& 128 != 0)).length + 1 := by
        unfold varintConsumed; omega
      rw [hcons] at hle ⊢
      rw [if_neg h4]
      have hz : ((((b.drop p).takeWhile (fun u => u &&& 128 != 0)).length + 1) == 0)
          = false := by simp
      rw [hz]
      simp only [Bool.false_eq_true, if_false, ite_false]
      rw [if_neg (Nat.not_lt.mpr hle)]
      rw [parse_pos_fold _ (hsub _)]
      rw [List.length_take, Nat.min_eq_left hle]
  · intro hne hlt
    unfold MMMap.parse_pos
    rw [hget]
    have hcond : ((b[p] &&& 0x80) == 0) = false := by
      simpa using hne
    simp only [hcond, Bool.false_eq_true, if_false, ite_false]
    by_cases h4 : ((b.drop p).takeWhile (fun u => u &&& 128 != 0)).length + 1 ≥ 4
    · have hcons : varintConsumed b p = 4 := by
        unfold varintConsumed; omega
      rw [hcons] at hlt
      rw [if_pos h4, if_pos hlt]
    · have hcons : varintConsumed b p =
          ((b.drop p).takeWhile (fun u => u &&& 128 != 0)).length + 1 := by
        unfold varintConsumed; omega
      rw [hcons] at hlt
      rw [if_neg h4]
      have hz : ((((b.drop p).takeWhile (fun u => u &&& 128 != 0)).length + 1) == 0)
          = false := by simp
      rw [hz]
      simp only [Bool.false_eq_true, if_false, ite_false]
      rw [if_pos hlt]

/-- C9 counterexample: position 0 of the one-byte buffer `[0x80]` is in
bounds, yet the decoder returns no value — the Rust code panics slicing
`splitted_data[..2]` out of a 1-byte slice, so the claim that it always
returns a decoded length fails. -/
theorem C9_counterexample :
    MMMap.parse_pos [128] 0 = none ∧ 0 < ([128] : List Nat).length :=
  ⟨rfl, by decide⟩

/-- C9 witness: buffer `[0x85, 0x03]` at position 0 decodes to
5 + 3·128 = 389 consuming 2 bytes. -/
theorem C9_witness :
    MMMap.parse_pos [133, 3] 0 =
      some (varintValue ((([133, 3] : List Nat).drop 0).take (varintConsumed [133, 3] 0)),
        varintConsumed [133, 3] 0) :=
  (C9_parse_pos_decodes [133, 3] 0 (by decide) (by decide)).2.1 (by decide) (by decide)
